import Mathlib

/-!
Shallow embedding of the quote-trade CLI trading bot's core
(`src/rsi-runner.ts`, `src/utils/candle-aggregator.ts`, the
`PositionManager` and the numeric utilities), over exact rational
arithmetic.  Machine floats are modelled as `ℚ`, timestamps as `ℤ`,
JavaScript `throw` as an explicit outcome value, and the asynchronous
executor as an oracle flag saying whether the awaited submission call
throws.
-/

/-- Position side, from `PositionSide` in `position-manager`. -/
inductive Side where
  | FLAT
  | LONG
  | SHORT
deriving DecidableEq, Repr

/-- Band side, from the `"upper" | "lower"` literals of `PositionManager.cycleSide`. -/
inductive CycleSide where
  | upper
  | lower
deriving DecidableEq, Repr

/-- `MODE` environment switch of `RSIRunner` (`paper` unless set otherwise). -/
inductive Mode where
  | paper
  | real
deriving DecidableEq, Repr

/-- Order direction of an executor call (`executor.buy` / `executor.sell`). -/
inductive OSide where
  | BUY
  | SELL
deriving DecidableEq, Repr

/-- How a candle evaluation finished: normally, with an executor error
caught by the local `try/catch`, or with an uncaught throw
(`toQtyFromUsd` throwing outside any `try`). -/
inductive Outcome where
  | ok
  | caught
  | uncaught
deriving DecidableEq, Repr

/-- One order-book level `{p, q}`. -/
structure Level where
  p : ℚ
  q : ℚ
deriving DecidableEq, Repr

/-- Order book carried on ticks and candles: `{s?, bids, asks}`. -/
structure OrderBook where
  bids : List Level
  asks : List Level
deriving DecidableEq, Repr

/-- A price tick `{ts, price, orderBook}`. -/
structure Tick where
  ts : ℤ
  price : ℚ
  orderBook : OrderBook
deriving DecidableEq, Repr

/-- A candle `{start, end, open, high, low, close, orderBook}`.
`end`/`open` are Lean keywords, hence `end_`/`open_`. -/
structure Candle where
  start : ℤ
  end_ : ℤ
  open_ : ℚ
  high : ℚ
  low : ℚ
  close : ℚ
  orderBook : OrderBook
deriving DecidableEq, Repr

/-- `PositionManager` state (`position-manager`).  `maxOrdersPerCycle`
is the read-only constructor argument. -/
structure PM where
  side : Side
  qtyAbs : ℚ
  cycleSide : Option CycleSide
  ordersInCycle : ℕ
  armed : Bool
  inflight : Bool
  maxOrdersPerCycle : ℕ
deriving DecidableEq, Repr

/-- `new PositionManager(maxOrdersPerCycle)`: field initialisers. -/
def PM.init (maxOrders : ℕ) : PM :=
  { side := .FLAT
    qtyAbs := 0
    cycleSide := none
    ordersInCycle := 0
    armed := true
    inflight := false
    maxOrdersPerCycle := maxOrders }

/-- `enterBand(side)`: reset the cycle when switching bands. -/
def PM.enterBand (pm : PM) (s : CycleSide) : PM :=
  if pm.cycleSide = some s then pm
  else { pm with cycleSide := some s, ordersInCycle := 0, armed := true }

/-- `rearmFromNeutral()`. -/
def PM.rearmFromNeutral (pm : PM) : PM :=
  { pm with armed := true }

/-- `consumeAndDisarm()`: `ordersInCycle = min(ordersInCycle + 1, maxOrdersPerCycle)`,
`armed = false`. -/
def PM.consumeAndDisarm (pm : PM) : PM :=
  { pm with ordersInCycle := min (pm.ordersInCycle + 1) pm.maxOrdersPerCycle
            armed := false }

/-- `setFlat()`. -/
def PM.setFlat (pm : PM) : PM :=
  { pm with side := .FLAT, qtyAbs := 0 }

/-- `setLong(qtyAbs)`. -/
def PM.setLong (pm : PM) (q : ℚ) : PM :=
  { pm with side := .LONG, qtyAbs := q }

/-- `setShort(qtyAbs)`. -/
def PM.setShort (pm : PM) (q : ℚ) : PM :=
  { pm with side := .SHORT, qtyAbs := q }

/-- External position update payload; `netQty` may be absent
(`u.netQty ?? 0`). -/
structure PosUpdate where
  netQty : Option ℚ
deriving DecidableEq, Repr

/-- `RSIRunner.applyPosition(u)`: `q = Number(u.netQty ?? 0)`; flat on 0,
long on positive, short on negative, with `Math.abs(q)`. -/
def PM.applyPosition (pm : PM) (u : PosUpdate) : PM :=
  let q := u.netQty.getD 0
  if q = 0 then pm.setFlat
  else if 0 < q then pm.setLong |q|
  else pm.setShort |q|

/-- `RSIRunner.clearInflight()`: `pm.inflight = false`. -/
def PM.clearInflight (pm : PM) : PM :=
  { pm with inflight := false }

/-! ## Oscillator (`calculateRSI` in `utils`) -/

/-- Consecutive differences `closes[i] - closes[i-1]`, the stream both
loops of `calculateRSI` traverse. -/
def deltas : List ℚ → List ℚ
  | [] => []
  | [_] => []
  | a :: b :: t => (b - a) :: deltas (b :: t)

/-- One iteration of the smoothing loop of `calculateRSI`:
`avgGain = (avgGain*(period-1) + (diff > 0 ? diff : 0)) / period` and
likewise for `avgLoss` with `diff < 0 ? -diff : 0`. -/
def wilderStep (period : ℕ) (ga : ℚ × ℚ) (d : ℚ) : ℚ × ℚ :=
  ((ga.1 * ((period : ℚ) - 1) + (if 0 < d then d else 0)) / (period : ℚ),
   (ga.2 * ((period : ℚ) - 1) + (if d < 0 then -d else 0)) / (period : ℚ))

/-- `calculateRSI(closes, period)` (`utils`), with `null` as `none`. -/
def calculateRSI (closes : List ℚ) (period : ℕ) : Option ℚ :=
  if closes.length < period + 1 then none
  else
    let ds := deltas closes
    let seed := ds.take period
    let gains := (seed.map fun d => if 0 ≤ d then d else 0).sum
    let losses := (seed.map fun d => if 0 ≤ d then 0 else -d).sum
    let init : ℚ × ℚ := (gains / (period : ℚ), losses / (period : ℚ))
    let avg := (ds.drop period).foldl (wilderStep period) init
    if avg.2 = 0 then some 100
    else some (100 - 100 / (1 + avg.1 / avg.2))

/-- Wilder's RSI as the spec words it: seed average gain/loss as the
simple mean of the positive/negative parts of the first `period`
deltas, smooth each subsequent delta by
`avg = (avg*(period-1) + currentDelta)/period`, return 100 when the
smoothed average loss is exactly zero and `100 - 100/(1 + avgGain/avgLoss)`
otherwise; insufficient data below `period + 1` closes. -/
def wilderRSI (closes : List ℚ) (period : ℕ) : Option ℚ :=
  if closes.length < period + 1 then none
  else
    let ds := deltas closes
    let seed := ds.take period
    let avgGain0 := (seed.map fun d => max d 0).sum / (period : ℚ)
    let avgLoss0 := (seed.map fun d => max (-d) 0).sum / (period : ℚ)
    let step : ℚ × ℚ → ℚ → ℚ × ℚ := fun ga d =>
      ((ga.1 * ((period : ℚ) - 1) + max d 0) / (period : ℚ),
       (ga.2 * ((period : ℚ) - 1) + max (-d) 0) / (period : ℚ))
    let avg := (ds.drop period).foldl step (avgGain0, avgLoss0)
    if avg.2 = 0 then some 100
    else some (100 - 100 / (1 + avg.1 / avg.2))

/-! ## Depth-aware sizing (`utils`) -/

/-- `getMaxMatchingPrices(orderBook, quantity)`: first bid level with
`q >= quantity`, else `{}`. -/
def findBid (ob : OrderBook) (qty : ℚ) : Option Level :=
  ob.bids.find? fun l => qty ≤ l.q

/-- `getMaxMatchingPrices(orderBook, quantity)`: first ask level with
`q >= quantity`, else `{}`. -/
def findAsk (ob : OrderBook) (qty : ℚ) : Option Level :=
  ob.asks.find? fun l => qty ≤ l.q

/-- `Number(bid?.p || '0')`: the matched bid level's price, `0` when no
level matches (and `0` stays `0`). -/
def bidPrice (ob : OrderBook) (qty : ℚ) : ℚ :=
  match findBid ob qty with
  | some l => l.p
  | none => 0

/-- `Number(ask?.p || '0')`: the matched ask level's price, `0` when no
level matches. -/
def askPrice (ob : OrderBook) (qty : ℚ) : ℚ :=
  match findAsk ob qty with
  | some l => l.p
  | none => 0

/-- The numeric value of `toQtyFromUsd(notionalUsd, price, scale)`:
`Math.floor(notionalUsd/price * 10^scale) / 10^scale`, the number the
runner trades with after `Number(...)` of the formatted string.  The
throwing guards of the source are handled at the call site
(`tradeOpen` below). -/
def qtyFromUsdVal (notionalUsd price : ℚ) (scale : ℕ) : ℚ :=
  (⌊notionalUsd / price * 10 ^ scale⌋ : ℚ) / 10 ^ scale

/-- `Number(qtyAbs.toFixed(scale))`: round half away from zero to
`scale` decimal digits (for the non-negative `qtyAbs` this is
`round(x * 10^scale) / 10^scale`). -/
def roundToScale (scale : ℕ) (x : ℚ) : ℚ :=
  (round (x * 10 ^ scale) : ℚ) / 10 ^ scale

/-! ## String-level model of `toQtyFromUsd` -/

/-- The fractional digits `toFixed(s)` prints for the value `m / 10^s`:
exactly `s` characters, most significant first. -/
def fracDigits (s m : ℕ) : List Char :=
  ((List.range s).reverse).map fun i => Nat.digitChar (m / 10 ^ i % 10)

/-- Decimal digits of `n`, least significant first (`fuel`-bounded
division loop; `fuel = n` suffices). -/
def natDigitsRev : ℕ → ℕ → List Char
  | 0, _ => []
  | fuel + 1, n =>
      if n = 0 then [] else Nat.digitChar (n % 10) :: natDigitsRev fuel (n / 10)

/-- Decimal rendering of a natural number (the integer part printed by
`toFixed`). -/
def natRepr (n : ℕ) : String :=
  if n = 0 then "0" else String.mk (natDigitsRev n n).reverse

/-- `value.toFixed(s)` for `value = m / 10^s`, `m : ℕ`: the integer
part in decimal, then (when `s > 0`) a dot and exactly `s` fractional
digits. -/
def fixedString (m s : ℕ) : String :=
  if s = 0 then natRepr m
  else natRepr (m / 10 ^ s) ++ "." ++ String.mk (fracDigits s (m % 10 ^ s))

/-- `toQtyFromUsd(notionalUsd, price, quantityScale)` (`utils`): throws
on non-positive notional or price, otherwise floors
`notionalUsd/price` to `quantityScale` digits and formats with
`toFixed(quantityScale)`. -/
def toQtyFromUsd (notionalUsd price : ℚ) (quantityScale : ℕ) :
    Except String String :=
  if notionalUsd ≤ 0 then .error "notionalUsd must be > 0"
  else if price ≤ 0 then .error "price must be > 0"
  else
    let m : ℤ := ⌊notionalUsd / price * 10 ^ quantityScale⌋
    .ok (fixedString m.toNat quantityScale)

/-! ## Candle aggregator (`CandleAggregator`) -/

/-- `ingest(t)`: returns the updated current candle and the candles
emitted through the close callback during this call. -/
def aggIngest (intervalMs : ℤ) (cur : Option Candle) (t : Tick) :
    Option Candle × List Candle :=
  let bucketStart := Int.fdiv t.ts intervalMs * intervalMs
  let bucketEnd := bucketStart + intervalMs
  match cur with
  | none =>
      (some { start := bucketStart, end_ := bucketEnd, open_ := t.price,
              high := t.price, low := t.price, close := t.price,
              orderBook := t.orderBook }, [])
  | some c =>
      if c.end_ ≤ t.ts then
        (some { start := bucketStart, end_ := bucketEnd, open_ := t.price,
                high := t.price, low := t.price, close := t.price,
                orderBook := t.orderBook }, [c])
      else
        (some { c with high := max c.high t.price, low := min c.low t.price,
                       close := t.price, orderBook := t.orderBook }, [])

/-- Feed a list of ticks through `ingest`, collecting the emitted
candles in order. -/
def aggRun (intervalMs : ℤ) (cur : Option Candle) :
    List Tick → Option Candle × List Candle
  | [] => (cur, [])
  | t :: ts =>
      let (cur1, out1) := aggIngest intervalMs cur t
      let (cur2, out2) := aggRun intervalMs cur1 ts
      (cur2, out1 ++ out2)

/-- Run the aggregator from its initial state (`cur = null`) over a
tick list, then `flush()`: all candles ever passed to the close
callback. -/
def aggEmitted (intervalMs : ℤ) (ticks : List Tick) (doFlush : Bool) :
    List Candle :=
  let (cur, out) := aggRun intervalMs none ticks
  if doFlush then out ++ cur.toList else out

/-! ## Strategy orchestrator (`RSIRunner`) -/

/-- Effective runner parameters after the `??` defaults of `onCandle`
(`period ?? 14`, `low ?? 30`, `high ?? 70`, `notionalUsd ?? 0`,
`quantityScale ?? 6`). -/
structure Params where
  period : ℕ
  low : ℚ
  high : ℚ
  notionalUsd : ℚ
  quantityScale : ℕ
deriving DecidableEq, Repr

/-- An executor call `buy/sell(symbol, qty, price, ...)` made during a
candle evaluation (recorded whether or not the awaited call then
throws). -/
structure Order where
  side : OSide
  qty : ℚ
  price : ℚ
deriving DecidableEq, Repr

/-- Result of one trade helper or of a whole candle evaluation: the
position-manager state afterwards, the executor calls made, and how it
finished. -/
structure EvalResult where
  pm : PM
  orders : List Order
  outcome : Outcome
deriving DecidableEq, Repr

/-- `tradeOpen(side, reason)` in `onCandle`: USD-sized entry.
`toQtyFromUsd` throws (uncaught, outside the `try`) on non-positive
notional or price; the depth gate checks the ask for BUY and the bid
for SELL; inflight is set before the awaited call, the catch clears it
and consumes no slot, success runs `consumeAndDisarm`. -/
def tradeOpen (P : Params) (pm : PM) (ob : OrderBook) (px : ℚ)
    (execThrows : Bool) (side : OSide) : EvalResult :=
  if P.notionalUsd ≤ 0 ∨ px ≤ 0 then ⟨pm, [], .uncaught⟩
  else
    let qty := qtyFromUsdVal P.notionalUsd px P.quantityScale
    if side = .BUY ∧ askPrice ob qty ≤ 0 then ⟨pm, [], .ok⟩
    else if side = .SELL ∧ bidPrice ob qty ≤ 0 then ⟨pm, [], .ok⟩
    else
      let pm1 := { pm with inflight := true }
      let call : Order :=
        match side with
        | .BUY => ⟨.BUY, qty, askPrice ob qty⟩
        | .SELL => ⟨.SELL, qty, bidPrice ob qty⟩
      if execThrows then ⟨{ pm1 with inflight := false }, [call], .caught⟩
      else ⟨pm1.consumeAndDisarm, [call], .ok⟩

/-- `tradeFlatten(sideToClose, reason)` in `onCandle`: close the whole
current position.  When already flat (`qtyAbs <= 0`) the step is
consumed with no order.  The depth gate as written checks the ask for
closing a LONG and the bid for closing a SHORT, while the submitted
order is priced from the opposite side (`sell` at the bid, `buy` at
the ask). -/
def tradeFlatten (P : Params) (pm : PM) (ob : OrderBook)
    (execThrows : Bool) (sideToClose : Side) : EvalResult :=
  if pm.qtyAbs ≤ 0 then ⟨pm.consumeAndDisarm, [], .ok⟩
  else
    let qty := roundToScale P.quantityScale pm.qtyAbs
    if sideToClose = .LONG ∧ askPrice ob qty ≤ 0 then ⟨pm, [], .ok⟩
    else if sideToClose = .SHORT ∧ bidPrice ob qty ≤ 0 then ⟨pm, [], .ok⟩
    else
      let pm1 := { pm with inflight := true }
      let call : Order :=
        match sideToClose with
        | .LONG => ⟨.SELL, qty, bidPrice ob qty⟩
        | _ => ⟨.BUY, qty, askPrice ob qty⟩
      if execThrows then ⟨{ pm1 with inflight := false }, [call], .caught⟩
      else ⟨pm1.consumeAndDisarm, [call], .ok⟩

/-- The band-entry applied by the non-neutral real-mode path:
`enterBand("upper")` above the high, `enterBand("lower")` below the
low. -/
def pmBand (P : Params) (pm : PM) (rsi : ℚ) : PM :=
  if P.high < rsi then pm.enterBand .upper
  else if rsi < P.low then pm.enterBand .lower
  else pm

/-- The real-mode body of one band branch of `onCandle`, after
`enterBand` has been applied to produce `pm1`: the armed gate, then
first-slot flatten when the side matches the band, otherwise the
USD-sized open while the cycle cap is not reached. -/
def evalBand (P : Params) (pm1 : PM) (ob : OrderBook) (px : ℚ)
    (execThrows : Bool) (upper : Bool) : EvalResult :=
  if pm1.armed = false then ⟨pm1, [], .ok⟩
  else if upper then
    if pm1.ordersInCycle = 0 ∧ pm1.side = .LONG then
      tradeFlatten P pm1 ob execThrows .LONG
    else if pm1.ordersInCycle < pm1.maxOrdersPerCycle then
      tradeOpen P pm1 ob px execThrows .SELL
    else ⟨pm1, [], .ok⟩
  else
    if pm1.ordersInCycle = 0 ∧ pm1.side = .SHORT then
      tradeFlatten P pm1 ob execThrows .SHORT
    else if pm1.ordersInCycle < pm1.maxOrdersPerCycle then
      tradeOpen P pm1 ob px execThrows .BUY
    else ⟨pm1, [], .ok⟩

/-- The signal-handling part of `RSIRunner.onCandle`, given the
already-computed oscillator value: neutral re-arm, the inflight gate,
the paper-mode bypass, and the two band branches. -/
def evalSignal (P : Params) (mode : Mode) (pm : PM) (c : Candle)
    (rsi : ℚ) (execThrows : Bool) : EvalResult :=
  if P.low ≤ rsi ∧ rsi ≤ P.high then ⟨pm.rearmFromNeutral, [], .ok⟩
  else if pm.inflight then ⟨pm, [], .ok⟩
  else if P.high < rsi then
    match mode with
    | .paper => ⟨pm, [⟨.SELL, 0, bidPrice c.orderBook 0⟩], .ok⟩
    | .real => evalBand P (pm.enterBand .upper) c.orderBook c.close execThrows true
  else if rsi < P.low then
    match mode with
    | .paper => ⟨pm, [⟨.BUY, 0, askPrice c.orderBook 0⟩], .ok⟩
    | .real => evalBand P (pm.enterBand .lower) c.orderBook c.close execThrows false
  else ⟨pm, [], .ok⟩

/-- The bounded close series of the runner:
`closes.push(c.close); if (closes.length > 2000) closes.shift()`. -/
def pushClose (closes : List ℚ) (c : ℚ) : List ℚ :=
  let l := closes ++ [c]
  if 2000 < l.length then l.drop 1 else l

/-- Full runner state touched by `onCandle`, `applyPosition`,
`clearInflight`. -/
structure RunnerState where
  closes : List ℚ
  pm : PM
deriving DecidableEq, Repr

/-- Initial runner state: empty close series,
`new PositionManager(maxOrdersPerCycle)`. -/
def RunnerState.init (maxOrders : ℕ) : RunnerState :=
  ⟨[], PM.init maxOrders⟩

/-- `RSIRunner.onCandle(c)`: push the close into the bounded series,
compute the oscillator, and when warm dispatch on the signal. -/
def onCandle (P : Params) (mode : Mode) (s : RunnerState) (c : Candle)
    (execThrows : Bool) : RunnerState × List Order × Outcome :=
  let closes1 := pushClose s.closes c.close
  match calculateRSI closes1 P.period with
  | none => (⟨closes1, s.pm⟩, [], .ok)
  | some rsi =>
      let r := evalSignal P mode s.pm c rsi execThrows
      (⟨closes1, r.pm⟩, r.orders, r.outcome)

/-- Events the runner reacts to: a sealed candle (with the executor
oracle), an external position snapshot, a terminal order update. -/
inductive REvent where
  | candle (c : Candle) (execThrows : Bool)
  | position (u : PosUpdate)
  | terminal
deriving Repr

/-- One event step of the runner. -/
def runnerStep (P : Params) (mode : Mode) (s : RunnerState) :
    REvent → RunnerState
  | .candle c et => (onCandle P mode s c et).1
  | .position u => ⟨s.closes, s.pm.applyPosition u⟩
  | .terminal => ⟨s.closes, s.pm.clearInflight⟩

/-- States reachable from the initial runner state under any event
sequence. -/
inductive Reachable (P : Params) (mode : Mode) (maxOrders : ℕ) :
    RunnerState → Prop
  | init : Reachable P mode maxOrders (RunnerState.init maxOrders)
  | step {s e} : Reachable P mode maxOrders s →
      Reachable P mode maxOrders (runnerStep P mode s e)

/-! ## Basic lemmas -/

lemma consumeAndDisarm_le (pm : PM) :
    pm.consumeAndDisarm.ordersInCycle ≤ pm.consumeAndDisarm.maxOrdersPerCycle := by
  simp [PM.consumeAndDisarm]

lemma enterBand_le (pm : PM) (s : CycleSide)
    (h : pm.ordersInCycle ≤ pm.maxOrdersPerCycle) :
    (pm.enterBand s).ordersInCycle ≤ (pm.enterBand s).maxOrdersPerCycle := by
  unfold PM.enterBand
  split <;> simp_all

lemma tradeOpen_le (P : Params) (pm : PM) (ob : OrderBook) (px : ℚ)
    (et : Bool) (side : OSide)
    (h : pm.ordersInCycle ≤ pm.maxOrdersPerCycle) :
    (tradeOpen P pm ob px et side).pm.ordersInCycle ≤
      (tradeOpen P pm ob px et side).pm.maxOrdersPerCycle := by
  simp only [tradeOpen]
  split_ifs <;> first
    | simpa
    | exact consumeAndDisarm_le _

lemma tradeFlatten_le (P : Params) (pm : PM) (ob : OrderBook)
    (et : Bool) (sideToClose : Side)
    (h : pm.ordersInCycle ≤ pm.maxOrdersPerCycle) :
    (tradeFlatten P pm ob et sideToClose).pm.ordersInCycle ≤
      (tradeFlatten P pm ob et sideToClose).pm.maxOrdersPerCycle := by
  simp only [tradeFlatten]
  split_ifs <;> first
    | simpa
    | exact consumeAndDisarm_le _

lemma evalBand_le (P : Params) (pm1 : PM) (ob : OrderBook) (px : ℚ)
    (et : Bool) (up : Bool)
    (h : pm1.ordersInCycle ≤ pm1.maxOrdersPerCycle) :
    (evalBand P pm1 ob px et up).pm.ordersInCycle ≤
      (evalBand P pm1 ob px et up).pm.maxOrdersPerCycle := by
  simp only [evalBand]
  split_ifs <;> first
    | simpa
    | exact tradeFlatten_le _ _ _ _ _ h
    | exact tradeOpen_le _ _ _ _ _ _ h

lemma evalSignal_le (P : Params) (mode : Mode) (pm : PM) (c : Candle)
    (rsi : ℚ) (et : Bool)
    (h : pm.ordersInCycle ≤ pm.maxOrdersPerCycle) :
    (evalSignal P mode pm c rsi et).pm.ordersInCycle ≤
      (evalSignal P mode pm c rsi et).pm.maxOrdersPerCycle := by
  simp only [evalSignal]
  split_ifs <;> cases mode <;> first
    | simpa [PM.rearmFromNeutral]
    | exact evalBand_le _ _ _ _ _ _ (enterBand_le _ _ h)

lemma applyPosition_le (pm : PM) (u : PosUpdate)
    (h : pm.ordersInCycle ≤ pm.maxOrdersPerCycle) :
    (pm.applyPosition u).ordersInCycle ≤ (pm.applyPosition u).maxOrdersPerCycle := by
  simp only [PM.applyPosition, PM.setFlat, PM.setLong, PM.setShort]
  split_ifs <;> simpa

lemma runnerStep_le (P : Params) (mode : Mode) (s : RunnerState) (e : REvent)
    (h : s.pm.ordersInCycle ≤ s.pm.maxOrdersPerCycle) :
    (runnerStep P mode s e).pm.ordersInCycle ≤
      (runnerStep P mode s e).pm.maxOrdersPerCycle := by
  cases e with
  | candle c et =>
      simp only [runnerStep, onCandle]
      cases hr : calculateRSI (pushClose s.closes c.close) P.period with
      | none => simpa
      | some rsi => simpa using evalSignal_le P mode s.pm c rsi et h
  | position u => exact applyPosition_le _ _ h
  | terminal => simpa [PM.clearInflight] using h

lemma reachable_ordersInCycle_le (P : Params) (mode : Mode) (m : ℕ)
    (s : RunnerState) (h : Reachable P mode m s) :
    s.pm.ordersInCycle ≤ s.pm.maxOrdersPerCycle := by
  induction h with
  | init => simp [RunnerState.init, PM.init]
  | step _ ih => exact runnerStep_le _ _ _ _ ih

/-! ## Claim C4: replay idempotence of the public interface -/

/-- C4: calling `clearInflight()` twice leaves `inflight = false`
exactly as calling it once does; calling `applyPosition(u)` a second
time with the same update changes nothing further; and
`applyPosition` recomputes only `side` and `qtyAbs`, from the sign and
magnitude of `netQty`, leaving every other field untouched. -/
theorem c4_replay_idempotent (pm : PM) (u : PosUpdate) :
    pm.clearInflight.clearInflight = pm.clearInflight ∧
    pm.clearInflight.inflight = false ∧
    (pm.applyPosition u).applyPosition u = pm.applyPosition u ∧
    (pm.applyPosition u).cycleSide = pm.cycleSide ∧
    (pm.applyPosition u).ordersInCycle = pm.ordersInCycle ∧
    (pm.applyPosition u).armed = pm.armed ∧
    (pm.applyPosition u).inflight = pm.inflight ∧
    (pm.applyPosition u).maxOrdersPerCycle = pm.maxOrdersPerCycle ∧
    ((pm.applyPosition u).side, (pm.applyPosition u).qtyAbs) =
      (if u.netQty.getD 0 = 0 then (Side.FLAT, (0 : ℚ))
       else if 0 < u.netQty.getD 0 then (Side.LONG, |u.netQty.getD 0|)
       else (Side.SHORT, |u.netQty.getD 0|)) := by
  simp only [PM.applyPosition, PM.clearInflight, PM.setFlat, PM.setLong,
    PM.setShort]
  split_ifs <;> simp_all

/-! ## Claim C10: bounded close series -/

/-- `status()` reports `candles: this.closes.length`. -/
def statusCandles (s : RunnerState) : ℕ :=
  s.closes.length

lemma pushClose_length_le (closes : List ℚ) (x : ℚ)
    (h : closes.length ≤ 2000) : (pushClose closes x).length ≤ 2000 := by
  simp only [pushClose]
  split <;> simp_all

lemma runnerStep_closes_le (P : Params) (mode : Mode) (s : RunnerState)
    (e : REvent) (h : s.closes.length ≤ 2000) :
    (runnerStep P mode s e).closes.length ≤ 2000 := by
  cases e with
  | candle c et =>
      simp only [runnerStep, onCandle]
      cases hr : calculateRSI (pushClose s.closes c.close) P.period <;>
        simpa using pushClose_length_le s.closes c.close h
  | position u => simpa
  | terminal => simpa

/-- C10: in every reachable runner state the retained close series
(reported by `status()` as `candles`) holds at most 2000 closes; below
the bound a new close is appended, and when appending would exceed the
bound the oldest close is evicted first. -/
theorem c10_retention_bound :
    (∀ (P : Params) (mode : Mode) (m : ℕ) (s : RunnerState),
        Reachable P mode m s → statusCandles s ≤ 2000) ∧
    (∀ (closes : List ℚ) (x : ℚ), closes.length < 2000 →
        pushClose closes x = closes ++ [x]) ∧
    (∀ (closes : List ℚ) (x : ℚ), closes.length = 2000 →
        pushClose closes x = closes.drop 1 ++ [x]) := by
  refine ⟨?_, ?_, ?_⟩
  · intro P mode m s h
    induction h with
    | init => simp [RunnerState.init, statusCandles]
    | step _ ih => exact runnerStep_closes_le _ _ _ _ ih
  · intro closes x h
    simp only [pushClose]
    split
    · next hlen =>
        exfalso
        simp at hlen
        omega
    · rfl
  · intro closes x h
    cases closes with
    | nil => simp at h
    | cons a t => simp only [pushClose]; split <;> simp_all

/-- Witness for C10 at the initial state and a concrete series. -/
theorem c10_retention_bound_witness :
    statusCandles (RunnerState.init 2) ≤ 2000 ∧
    pushClose [1, 2] 3 = [1, 2, 3] := by
  refine ⟨c10_retention_bound.1 ⟨14, 30, 70, 0, 6⟩ .paper 2 _ .init, ?_⟩
  have := c10_retention_bound.2.1 [1, 2] 3 (by simp)
  simpa using this

/-! ## Claim C5: the oscillator -/

lemma wilderStep_nonneg (period : ℕ) (ga : ℚ × ℚ) (d : ℚ)
    (hg : 0 ≤ ga.1) (hl : 0 ≤ ga.2) :
    0 ≤ (wilderStep period ga d).1 ∧ 0 ≤ (wilderStep period ga d).2 := by
  rcases Nat.eq_zero_or_pos period with h0 | hpos
  · simp [wilderStep, h0]
  · have hp : (0 : ℚ) < (period : ℚ) := by exact_mod_cast hpos
    have hp1 : (0 : ℚ) ≤ (period : ℚ) - 1 := by
      have : (1 : ℚ) ≤ (period : ℚ) := by exact_mod_cast hpos
      linarith
    constructor
    · apply div_nonneg _ hp.le
      have h1 : (0 : ℚ) ≤ if 0 < d then d else 0 := by split <;> linarith
      have h2 := mul_nonneg hg hp1
      simpa using add_nonneg h2 h1
    · apply div_nonneg _ hp.le
      have h1 : (0 : ℚ) ≤ if d < 0 then -d else 0 := by split <;> linarith
      have h2 := mul_nonneg hl hp1
      simpa using add_nonneg h2 h1

lemma foldl_wilderStep_nonneg (period : ℕ) (l : List ℚ) (init : ℚ × ℚ)
    (hg : 0 ≤ init.1) (hl : 0 ≤ init.2) :
    0 ≤ (l.foldl (wilderStep period) init).1 ∧
      0 ≤ (l.foldl (wilderStep period) init).2 := by
  induction l generalizing init with
  | nil => exact ⟨hg, hl⟩
  | cons d t ih =>
      have h := wilderStep_nonneg period init d hg hl
      exact ih _ h.1 h.2

lemma sum_pos_part_nonneg (l : List ℚ) :
    0 ≤ (l.map fun d => if 0 ≤ d then d else 0).sum := by
  apply List.sum_nonneg
  intro x hx
  rcases List.mem_map.mp hx with ⟨d, _, rfl⟩
  split <;> linarith

lemma sum_neg_part_nonneg (l : List ℚ) :
    0 ≤ (l.map fun d => if 0 ≤ d then 0 else -d).sum := by
  apply List.sum_nonneg
  intro x hx
  rcases List.mem_map.mp hx with ⟨d, _, rfl⟩
  split <;> linarith

lemma rsi_option_range (g l : ℚ) (hg : 0 ≤ g) (hl : 0 ≤ l) (r : ℚ)
    (h : (if l = 0 then some (100 : ℚ)
          else some (100 - 100 / (1 + g / l))) = some r) :
    0 ≤ r ∧ r ≤ 100 := by
  split at h
  · obtain rfl : (100 : ℚ) = r := by simpa using h
    norm_num
  · next hne =>
      obtain rfl : 100 - 100 / (1 + g / l) = r := by simpa using h
      have hl2 : 0 < l := lt_of_le_of_ne hl (Ne.symm hne)
      have hrs : 0 ≤ g / l := div_nonneg hg hl2.le
      have h1 : 100 / (1 + g / l) ≤ (100 : ℚ) :=
        div_le_self (by norm_num) (by linarith)
      have h2 : (0 : ℚ) ≤ 100 / (1 + g / l) :=
        div_nonneg (by norm_num) (by linarith)
      constructor <;> linarith

lemma calculateRSI_eq_wilderRSI (closes : List ℚ) (period : ℕ) :
    calculateRSI closes period = wilderRSI closes period := by
  have hf1 : (fun d : ℚ => if 0 ≤ d then d else 0) = fun d : ℚ => max d 0 := by
    funext d
    split
    · exact (max_eq_left (by linarith)).symm
    · exact (max_eq_right (by linarith)).symm
  have hf2 : (fun d : ℚ => if 0 ≤ d then 0 else -d) =
      fun d : ℚ => max (-d) 0 := by
    funext d
    split
    · exact (max_eq_right (by linarith)).symm
    · exact (max_eq_left (by linarith)).symm
  have hf3 : wilderStep period = fun (ga : ℚ × ℚ) (d : ℚ) =>
      ((ga.1 * ((period : ℚ) - 1) + max d 0) / (period : ℚ),
       (ga.2 * ((period : ℚ) - 1) + max (-d) 0) / (period : ℚ)) := by
    funext ga d
    have h1 : (if 0 < d then d else 0) = max d 0 := by
      rcases le_or_lt d 0 with h | h
      · rw [if_neg (not_lt.mpr h), max_eq_right h]
      · rw [if_pos h, max_eq_left h.le]
    have h2 : (if d < 0 then -d else 0) = max (-d) 0 := by
      rcases le_or_lt 0 d with h | h
      · rw [if_neg (not_lt.mpr h), max_eq_right (neg_nonpos.mpr h)]
      · rw [if_pos h, max_eq_left (by linarith : (0 : ℚ) ≤ -d)]
    unfold wilderStep
    rw [h1, h2]
  simp only [calculateRSI, wilderRSI, hf1, hf2, hf3]

/-- C5: `calculateRSI` reports insufficient data exactly when fewer
than `period + 1` closes are given; otherwise it computes Wilder's RSI
as the spec words it (seeded simple means smoothed by
`avg = (avg*(period-1) + delta)/period`, 100 on zero smoothed loss,
`100 - 100/(1 + avgGain/avgLoss)` otherwise); and every returned value
lies in `[0, 100]`. -/
theorem c5_oscillator_wilder (closes : List ℚ) (period : ℕ) :
    (calculateRSI closes period = none ↔ closes.length < period + 1) ∧
    calculateRSI closes period = wilderRSI closes period ∧
    (∀ r, calculateRSI closes period = some r → 0 ≤ r ∧ r ≤ 100) := by
  refine ⟨?_, calculateRSI_eq_wilderRSI closes period, ?_⟩
  · simp only [calculateRSI]
    split
    · simp_all
    · split <;> simp_all
  · intro r hr
    simp only [calculateRSI] at hr
    split at hr
    · exact absurd hr (by simp)
    · have hnn := foldl_wilderStep_nonneg period ((deltas closes).drop period)
        (((((deltas closes).take period).map
            fun d => if 0 ≤ d then d else 0).sum / (period : ℚ)),
         ((((deltas closes).take period).map
            fun d => if 0 ≤ d then 0 else -d).sum / (period : ℚ)))
        (div_nonneg (sum_pos_part_nonneg _) (by positivity))
        (div_nonneg (sum_neg_part_nonneg _) (by positivity))
      exact rsi_option_range _ _ hnn.1 hnn.2 r hr

/-- Witness for C5 at a concrete series: three rising closes with
period 1 give RSI 100. -/
theorem c5_oscillator_wilder_witness :
    calculateRSI [1, 2, 4] 1 = some 100 ∧ 0 ≤ (100 : ℚ) ∧ (100 : ℚ) ≤ 100 := by
  have h : calculateRSI [1, 2, 4] 1 = some 100 := by
    norm_num [calculateRSI, deltas, wilderStep]
  exact ⟨h, (c5_oscillator_wilder [1, 2, 4] 1).2.2 100 h⟩

/-! ## Claim C7: aggregator candle invariants -/

/-- The properties claimed of every emitted candle: OHLC ordering,
fixed width, and a bucket start floored from the tick that opened the
candle. -/
def candOk (intervalMs : ℤ) (ticks : List Tick) (c : Candle) : Prop :=
  c.low ≤ c.open_ ∧ c.open_ ≤ c.high ∧ c.low ≤ c.close ∧ c.close ≤ c.high ∧
  c.end_ = c.start + intervalMs ∧
  ∃ t ∈ ticks, c.start = Int.fdiv t.ts intervalMs * intervalMs ∧
    c.open_ = t.price

lemma candOk_append (i : ℤ) (seen more : List Tick) (c : Candle)
    (h : candOk i seen c) : candOk i (seen ++ more) c := by
  obtain ⟨h1, h2, h3, h4, h5, t, ht, h6⟩ := h
  exact ⟨h1, h2, h3, h4, h5, t, List.mem_append_left _ ht, h6⟩

lemma candOk_new (i : ℤ) (seen : List Tick) (t : Tick) (ht : t ∈ seen) :
    candOk i seen
      { start := Int.fdiv t.ts i * i, end_ := Int.fdiv t.ts i * i + i,
        open_ := t.price, high := t.price, low := t.price,
        close := t.price, orderBook := t.orderBook } := by
  exact ⟨le_refl _, le_refl _, le_refl _, le_refl _, rfl, t, ht, rfl, rfl⟩

lemma aggIngest_inv (i : ℤ) (cur : Option Candle) (t : Tick)
    (seen : List Tick) (h : ∀ c, cur = some c → candOk i seen c) :
    (∀ c, (aggIngest i cur t).1 = some c → candOk i (seen ++ [t]) c) ∧
    (∀ c ∈ (aggIngest i cur t).2, candOk i (seen ++ [t]) c) := by
  have htm : t ∈ seen ++ [t] := List.mem_append_right _ (by simp)
  cases cur with
  | none =>
      refine ⟨fun c hc => ?_, by simp [aggIngest]⟩
      simp only [aggIngest, Option.some.injEq] at hc
      exact hc ▸ candOk_new i (seen ++ [t]) t htm
  | some c0 =>
      have h0 := h c0 rfl
      simp only [aggIngest]
      split
      · refine ⟨fun c hc => ?_, fun c hc => ?_⟩
        · simp only [Option.some.injEq] at hc
          exact hc ▸ candOk_new i (seen ++ [t]) t htm
        · simp only [List.mem_singleton] at hc
          exact hc ▸ candOk_append i seen [t] c0 h0
      · refine ⟨fun c hc => ?_, by simp⟩
        simp only [Option.some.injEq] at hc
        obtain ⟨h1, h2, h3, h4, h5, u, hu, h6, h7⟩ := h0
        subst hc
        refine ⟨?_, ?_, ?_, ?_, h5, u, List.mem_append_left _ hu, h6, h7⟩
        · exact le_trans (min_le_left _ _) h1
        · exact le_trans h2 (le_max_left _ _)
        · exact min_le_right _ _
        · exact le_max_right _ _

lemma aggRun_inv (i : ℤ) (ticks : List Tick) :
    ∀ (cur : Option Candle) (seen : List Tick),
    (∀ c, cur = some c → candOk i seen c) →
    (∀ c, (aggRun i cur ticks).1 = some c →
        candOk i (seen ++ ticks) c) ∧
    (∀ c ∈ (aggRun i cur ticks).2, candOk i (seen ++ ticks) c) := by
  induction ticks with
  | nil => intro cur seen h; simpa [aggRun] using h
  | cons t ts ih =>
      intro cur seen h
      have h1 := aggIngest_inv i cur t seen h
      have h2 := ih (aggIngest i cur t).1 (seen ++ [t]) h1.1
      simp only [aggRun]
      constructor
      · intro c hc
        have := h2.1 c (by simpa using hc)
        simpa using this
      · intro c hc
        simp only [List.mem_append] at hc
        rcases hc with hc | hc
        · simpa using candOk_append i (seen ++ [t]) ts c (h1.2 c hc)
        · simpa using h2.2 c hc

/-- C7: every candle the aggregator emits through the close callback
(over any tick sequence, with or without a final `flush()`) satisfies
`low ≤ open ≤ high`, `low ≤ close ≤ high`,
`end = start + intervalMs`, and
`start = floor(openingTick.ts / intervalMs) * intervalMs` where the
opening tick is one of the ingested ticks and supplied the candle's
open price. -/
theorem c7_candle_invariants (i : ℤ) (ticks : List Tick) (doFlush : Bool)
    (c : Candle) (hc : c ∈ aggEmitted i ticks doFlush) :
    candOk i ticks c := by
  have h := aggRun_inv i ticks none [] (by simp)
  simp only [aggEmitted] at hc
  split at hc
  · simp only [List.mem_append] at hc
    rcases hc with hc | hc
    · simpa using h.2 c hc
    · rcases Option.mem_toList.mp hc with hcur
      simpa using h.1 c hcur
  · simpa using h.2 c hc

/-- Witness for C7: two ticks one minute apart; the first candle
emitted is the bucket of the first tick. -/
theorem c7_candle_invariants_witness :
    candOk 60000
      [⟨0, 5, ⟨[], []⟩⟩, ⟨60000, 6, ⟨[], []⟩⟩]
      ⟨0, 60000, 5, 5, 5, 5, ⟨[], []⟩⟩ := by
  apply c7_candle_invariants 60000
    [⟨0, 5, ⟨[], []⟩⟩, ⟨60000, 6, ⟨[], []⟩⟩] false
  norm_num [aggEmitted, aggRun, aggIngest, Int.fdiv]

/-! ## Claim C8: USD-notional sizing -/

/-- Number of characters after the first decimal point of a rendered
quantity (0 when there is no point). -/
def charsAfterDot (str : String) : ℕ :=
  ((str.data.dropWhile fun ch => ch ≠ '.').drop 1).length

lemma digitChar_ne_dot (k : ℕ) (h : k < 10) : Nat.digitChar k ≠ '.' := by
  interval_cases k <;> decide

lemma natDigitsRev_ne_dot (fuel n : ℕ) :
    ∀ ch ∈ natDigitsRev fuel n, ch ≠ '.' := by
  induction fuel generalizing n with
  | zero => simp [natDigitsRev]
  | succ fuel ih =>
      intro ch hch
      simp only [natDigitsRev] at hch
      split at hch
      · simp at hch
      · rcases List.mem_cons.mp hch with rfl | hch
        · exact digitChar_ne_dot _ (Nat.mod_lt _ (by norm_num))
        · exact ih _ ch hch

lemma natRepr_ne_dot (n : ℕ) : ∀ ch ∈ (natRepr n).data, ch ≠ '.' := by
  unfold natRepr
  split
  · intro ch hch
    simp only [String.data] at hch
    simp at hch
    simp [hch]
  · intro ch hch
    simp only [String.data] at hch
    exact natDigitsRev_ne_dot n n ch (List.mem_reverse.mp hch)

lemma dropWhile_all_append (p : Char → Bool) (l1 l2 : List Char)
    (h : ∀ ch ∈ l1, p ch) :
    List.dropWhile p (l1 ++ l2) = List.dropWhile p l2 := by
  induction l1 with
  | nil => rfl
  | cons a t ih =>
      have ha : p a := h a (by simp)
      simp only [List.cons_append, List.dropWhile_cons, ha, if_pos]
      exact ih fun ch hch => h ch (by simp [hch])

lemma fracDigits_length (s m : ℕ) : (fracDigits s m).length = s := by
  simp [fracDigits]

lemma charsAfterDot_fixedString (m s : ℕ) :
    charsAfterDot (fixedString m s) = s := by
  unfold fixedString
  split
  · next hs =>
      subst hs
      have h : ((natRepr m).data.dropWhile fun ch => ch ≠ '.') = [] :=
        List.dropWhile_eq_nil_iff.mpr
          (fun x hx => by simpa using natRepr_ne_dot m x hx)
      unfold charsAfterDot
      rw [h]
      rfl
  · unfold charsAfterDot
    have hdata : (natRepr (m / 10 ^ s) ++ "." ++
        String.mk (fracDigits s (m % 10 ^ s))).data =
        (natRepr (m / 10 ^ s)).data ++
          ('.' :: fracDigits s (m % 10 ^ s)) := by
      simp [String.data_append]
    rw [hdata, dropWhile_all_append _ _ _
      (by intro ch hch; simpa using natRepr_ne_dot _ ch hch)]
    simp [fracDigits_length]

/-- C8: `toQtyFromUsd` fails exactly when `notionalUsd ≤ 0` or
`price ≤ 0`; for positive inputs it returns `notionalUsd/price`
truncated — never rounded up — to `quantityScale` decimal digits with
floor semantics, formatted with exactly `quantityScale` digits after
the decimal point. -/
theorem c8_toQtyFromUsd (n p : ℚ) (s : ℕ) :
    ((∃ e, toQtyFromUsd n p s = .error e) ↔ n ≤ 0 ∨ p ≤ 0) ∧
    (0 < n → 0 < p →
      ∃ m : ℕ, toQtyFromUsd n p s = .ok (fixedString m s) ∧
        (m : ℤ) = ⌊n / p * 10 ^ s⌋ ∧
        (m : ℚ) / 10 ^ s ≤ n / p ∧
        n / p - (m : ℚ) / 10 ^ s < 1 / 10 ^ s ∧
        charsAfterDot (fixedString m s) = s) := by
  constructor
  · simp only [toQtyFromUsd]
    split_ifs with h1 h2
    · simp [h1]
    · simp [h2]
    · simp [h1, h2]
  · intro hn hp
    have hne1 : ¬n ≤ 0 := not_le.mpr hn
    have hne2 : ¬p ≤ 0 := not_le.mpr hp
    have hpow : (0 : ℚ) < 10 ^ s := by positivity
    have hy : (0 : ℚ) ≤ n / p * 10 ^ s := by positivity
    have hfl : (0 : ℤ) ≤ ⌊n / p * 10 ^ s⌋ := Int.floor_nonneg.mpr hy
    have hcast : (((⌊n / p * 10 ^ s⌋).toNat : ℕ) : ℚ) =
        ((⌊n / p * 10 ^ s⌋ : ℤ) : ℚ) := by
      exact_mod_cast congrArg (fun z : ℤ => (z : ℚ)) (Int.toNat_of_nonneg hfl)
    have hfloor_le : ((⌊n / p * 10 ^ s⌋ : ℤ) : ℚ) ≤ n / p * 10 ^ s :=
      Int.floor_le _
    have hlt : n / p * 10 ^ s < ((⌊n / p * 10 ^ s⌋ : ℤ) : ℚ) + 1 :=
      Int.lt_floor_add_one _
    refine ⟨(⌊n / p * 10 ^ s⌋).toNat, ?_, ?_, ?_, ?_,
      charsAfterDot_fixedString _ s⟩
    · simp [toQtyFromUsd, hne1, hne2]
    · exact_mod_cast Int.toNat_of_nonneg hfl
    · rw [hcast, div_le_iff₀ hpow]
      exact hfloor_le
    · rw [hcast, sub_lt_iff_lt_add, div_add_div_same, lt_div_iff₀ hpow]
      linarith

/-- Witness for C8 at `notionalUsd = 100`, `price = 15`, scale 2:
quantity 6.66 (floored, not 6.67). -/
theorem c8_toQtyFromUsd_witness :
    (0 : ℚ) < 100 ∧ (0 : ℚ) < 15 ∧
    ∃ m : ℕ, toQtyFromUsd 100 15 2 = .ok (fixedString m 2) ∧
      (m : ℤ) = ⌊(100 : ℚ) / 15 * 10 ^ 2⌋ ∧
      (m : ℚ) / 10 ^ 2 ≤ 100 / 15 ∧
      (100 : ℚ) / 15 - (m : ℚ) / 10 ^ 2 < 1 / 10 ^ 2 ∧
      charsAfterDot (fixedString m 2) = 2 :=
  ⟨by norm_num, by norm_num,
   (c8_toQtyFromUsd 100 15 2).2 (by norm_num) (by norm_num)⟩

/-! ## Claim C3: cycle cap and armed gate -/

lemma evalBand_orders_armed (P : Params) (pm1 : PM) (ob : OrderBook)
    (px : ℚ) (et : Bool) (up : Bool)
    (h : (evalBand P pm1 ob px et up).orders ≠ []) : pm1.armed = true := by
  by_contra hf
  have hfalse : pm1.armed = false := by cases hb : pm1.armed <;> simp_all
  simp [evalBand, hfalse] at h

lemma evalSignal_real_orders_armed (P : Params) (pm : PM) (c : Candle)
    (r : ℚ) (et : Bool)
    (h : (evalSignal P .real pm c r et).orders ≠ []) :
    (pmBand P pm r).armed = true := by
  simp only [evalSignal] at h
  split_ifs at h with h1 h2 h3 h4
  · simp at h
  · simp at h
  · rw [pmBand, if_pos h3]
    exact evalBand_orders_armed _ _ _ _ _ _ h
  · rw [pmBand, if_neg h3, if_pos h4]
    exact evalBand_orders_armed _ _ _ _ _ _ h
  · simp at h

/-- C3: (a) in every reachable runner state — in particular across
re-entries of the same band with no intervening neutral reading —
`ordersInCycle` never exceeds `maxOrdersPerCycle`; (b) whenever a
real-mode candle evaluation fires a submission, the position manager
was armed at the submission site (after the branch's `enterBand`). -/
theorem c3_cycle_cap_and_armed_gate :
    (∀ (P : Params) (mode : Mode) (m : ℕ) (s : RunnerState),
        Reachable P mode m s →
        s.pm.ordersInCycle ≤ s.pm.maxOrdersPerCycle) ∧
    (∀ (P : Params) (s : RunnerState) (c : Candle) (r : ℚ) (et : Bool),
        calculateRSI (pushClose s.closes c.close) P.period = some r →
        (onCandle P .real s c et).2.1 ≠ [] →
        (pmBand P s.pm r).armed = true) := by
  constructor
  · intro P mode m s h
    exact reachable_ordersInCycle_le P mode m s h
  · intro P s c r et hr h
    simp only [onCandle, hr] at h
    exact evalSignal_real_orders_armed P s.pm c r et h

/-- Witness for C3: the initial state respects the cap, and a concrete
armed evaluation that fires a submission was armed at the site. -/
theorem c3_cycle_cap_and_armed_gate_witness :
    (RunnerState.init 2).pm.ordersInCycle ≤
      (RunnerState.init 2).pm.maxOrdersPerCycle ∧
    (pmBand ⟨1, 30, 70, 100, 2⟩
      ⟨.FLAT, 0, some .upper, 0, true, false, 2⟩ 100).armed = true := by
  refine ⟨c3_cycle_cap_and_armed_gate.1 ⟨1, 30, 70, 100, 2⟩ .real 2 _ .init,
    c3_cycle_cap_and_armed_gate.2 ⟨1, 30, 70, 100, 2⟩
      ⟨[1, 2], ⟨.FLAT, 0, some .upper, 0, true, false, 2⟩⟩
      ⟨0, 60000, 1, 4, 1, 4, ⟨[⟨10, 100⟩], [⟨11, 100⟩]⟩⟩ 100 false ?_ ?_⟩
  · norm_num [calculateRSI, pushClose, deltas, wilderStep]
  · norm_num [onCandle, evalSignal, evalBand, tradeOpen, tradeFlatten,
      pushClose, calculateRSI, deltas, wilderStep, PM.enterBand,
      PM.consumeAndDisarm, qtyFromUsdVal, roundToScale, bidPrice, askPrice,
      findBid, findAsk]; simp

/-! ## Claim C6: submission-failure atomicity -/

lemma tradeOpen_throw (P : Params) (pm : PM) (ob : OrderBook) (px : ℚ)
    (side : OSide) (h : (tradeOpen P pm ob px true side).orders ≠ []) :
    (tradeOpen P pm ob px true side).outcome = .caught ∧
    (tradeOpen P pm ob px true side).pm.inflight = false ∧
    (tradeOpen P pm ob px true side).pm.ordersInCycle = pm.ordersInCycle ∧
    (tradeOpen P pm ob px true side).pm.armed = pm.armed := by
  simp only [tradeOpen] at h ⊢
  split_ifs at h ⊢ <;> simp_all

lemma tradeFlatten_throw (P : Params) (pm : PM) (ob : OrderBook)
    (sideToClose : Side)
    (h : (tradeFlatten P pm ob true sideToClose).orders ≠ []) :
    (tradeFlatten P pm ob true sideToClose).outcome = .caught ∧
    (tradeFlatten P pm ob true sideToClose).pm.inflight = false ∧
    (tradeFlatten P pm ob true sideToClose).pm.ordersInCycle =
      pm.ordersInCycle ∧
    (tradeFlatten P pm ob true sideToClose).pm.armed = pm.armed := by
  simp only [tradeFlatten] at h ⊢
  split_ifs at h ⊢ <;> simp_all

lemma evalBand_throw (P : Params) (pm1 : PM) (ob : OrderBook) (px : ℚ)
    (up : Bool) (h : (evalBand P pm1 ob px true up).orders ≠ []) :
    (evalBand P pm1 ob px true up).outcome = .caught ∧
    (evalBand P pm1 ob px true up).pm.inflight = false ∧
    (evalBand P pm1 ob px true up).pm.ordersInCycle = pm1.ordersInCycle ∧
    (evalBand P pm1 ob px true up).pm.armed = pm1.armed := by
  simp only [evalBand] at h ⊢
  split_ifs at h ⊢ <;> first
    | exact tradeFlatten_throw _ _ _ _ h
    | exact tradeOpen_throw _ _ _ _ _ h
    | simp at h

lemma evalSignal_real_throw (P : Params) (pm : PM) (c : Candle) (r : ℚ)
    (h : (evalSignal P .real pm c r true).orders ≠ []) :
    (evalSignal P .real pm c r true).outcome = .caught ∧
    (evalSignal P .real pm c r true).pm.inflight = false ∧
    (evalSignal P .real pm c r true).pm.ordersInCycle =
      (pmBand P pm r).ordersInCycle ∧
    (evalSignal P .real pm c r true).pm.armed = (pmBand P pm r).armed := by
  simp only [evalSignal] at h ⊢
  split_ifs at h ⊢ with h1 h2 h3 h4
  · simp at h
  · simp at h
  · rw [pmBand, if_pos h3]
    exact evalBand_throw _ _ _ _ _ h
  · rw [pmBand, if_neg h3, if_pos h4]
    exact evalBand_throw _ _ _ _ _ h
  · simp at h

/-- C6 counterexample: a real-mode evaluation that switches bands
before the throwing submission.  Before the candle,
`ordersInCycle = 2` and `armed = false`; the submission call throws
(outcome caught, one order attempted), yet afterwards
`ordersInCycle = 0` and `armed = true` — so "neither ordersInCycle
nor armed changes" fails as stated. -/
theorem c6_counterexample :
    (onCandle ⟨1, 30, 70, 100, 2⟩ .real
      ⟨[1, 2], ⟨.FLAT, 0, some .lower, 2, false, false, 2⟩⟩
      ⟨0, 60000, 1, 4, 1, 4, ⟨[⟨10, 100⟩], [⟨11, 100⟩]⟩⟩ true).2.1 ≠ [] ∧
    (onCandle ⟨1, 30, 70, 100, 2⟩ .real
      ⟨[1, 2], ⟨.FLAT, 0, some .lower, 2, false, false, 2⟩⟩
      ⟨0, 60000, 1, 4, 1, 4, ⟨[⟨10, 100⟩], [⟨11, 100⟩]⟩⟩ true).2.2 =
      .caught ∧
    ¬((onCandle ⟨1, 30, 70, 100, 2⟩ .real
        ⟨[1, 2], ⟨.FLAT, 0, some .lower, 2, false, false, 2⟩⟩
        ⟨0, 60000, 1, 4, 1, 4, ⟨[⟨10, 100⟩], [⟨11, 100⟩]⟩⟩
        true).1.pm.ordersInCycle = 2 ∧
      (onCandle ⟨1, 30, 70, 100, 2⟩ .real
        ⟨[1, 2], ⟨.FLAT, 0, some .lower, 2, false, false, 2⟩⟩
        ⟨0, 60000, 1, 4, 1, 4, ⟨[⟨10, 100⟩], [⟨11, 100⟩]⟩⟩
        true).1.pm.armed = false) := by
  norm_num [onCandle, evalSignal, evalBand, tradeOpen, tradeFlatten,
    pushClose, calculateRSI, deltas, wilderStep, PM.enterBand,
    PM.consumeAndDisarm, qtyFromUsdVal, roundToScale, bidPrice, askPrice,
    findBid, findAsk]; simp

/-- C6 (amended): when the awaited submission call of a real-mode
candle evaluation throws, the error is caught locally, `inflight` is
false after the evaluation, and the failed attempt consumes no cycle
slot: `ordersInCycle` and `armed` keep the values they had immediately
before the attempt (i.e. after the branch's `enterBand`, which on a
band switch may itself have reset them earlier in the evaluation). -/
theorem c6_submission_failure_atomic (P : Params) (s : RunnerState)
    (c : Candle) (r : ℚ)
    (hr : calculateRSI (pushClose s.closes c.close) P.period = some r)
    (h : (onCandle P .real s c true).2.1 ≠ []) :
    (onCandle P .real s c true).2.2 = .caught ∧
    (onCandle P .real s c true).1.pm.inflight = false ∧
    (onCandle P .real s c true).1.pm.ordersInCycle =
      (pmBand P s.pm r).ordersInCycle ∧
    (onCandle P .real s c true).1.pm.armed = (pmBand P s.pm r).armed := by
  simp only [onCandle, hr] at h ⊢
  exact evalSignal_real_throw P s.pm c r h

/-- Witness for C6 at the concrete throwing evaluation. -/
theorem c6_submission_failure_atomic_witness :
    (onCandle ⟨1, 30, 70, 100, 2⟩ .real
      ⟨[1, 2], ⟨.FLAT, 0, some .lower, 2, false, false, 2⟩⟩
      ⟨0, 60000, 1, 4, 1, 4, ⟨[⟨10, 100⟩], [⟨11, 100⟩]⟩⟩ true).2.2 =
      .caught ∧
    (onCandle ⟨1, 30, 70, 100, 2⟩ .real
      ⟨[1, 2], ⟨.FLAT, 0, some .lower, 2, false, false, 2⟩⟩
      ⟨0, 60000, 1, 4, 1, 4, ⟨[⟨10, 100⟩], [⟨11, 100⟩]⟩⟩
      true).1.pm.inflight = false ∧
    (onCandle ⟨1, 30, 70, 100, 2⟩ .real
      ⟨[1, 2], ⟨.FLAT, 0, some .lower, 2, false, false, 2⟩⟩
      ⟨0, 60000, 1, 4, 1, 4, ⟨[⟨10, 100⟩], [⟨11, 100⟩]⟩⟩
      true).1.pm.ordersInCycle =
      (pmBand ⟨1, 30, 70, 100, 2⟩
        ⟨.FLAT, 0, some .lower, 2, false, false, 2⟩ 100).ordersInCycle ∧
    (onCandle ⟨1, 30, 70, 100, 2⟩ .real
      ⟨[1, 2], ⟨.FLAT, 0, some .lower, 2, false, false, 2⟩⟩
      ⟨0, 60000, 1, 4, 1, 4, ⟨[⟨10, 100⟩], [⟨11, 100⟩]⟩⟩
      true).1.pm.armed =
      (pmBand ⟨1, 30, 70, 100, 2⟩
        ⟨.FLAT, 0, some .lower, 2, false, false, 2⟩ 100).armed := by
  apply c6_submission_failure_atomic ⟨1, 30, 70, 100, 2⟩
    ⟨[1, 2], ⟨.FLAT, 0, some .lower, 2, false, false, 2⟩⟩
    ⟨0, 60000, 1, 4, 1, 4, ⟨[⟨10, 100⟩], [⟨11, 100⟩]⟩⟩ 100
  · norm_num [calculateRSI, pushClose, deltas, wilderStep]
  · norm_num [onCandle, evalSignal, evalBand, tradeOpen, tradeFlatten,
      pushClose, calculateRSI, deltas, wilderStep, PM.enterBand,
      PM.consumeAndDisarm, qtyFromUsdVal, roundToScale, bidPrice, askPrice,
      findBid, findAsk]; simp

/-! ## Claim C9: paper-mode bypass -/

lemma applyPosition_inflight (pm : PM) (u : PosUpdate) :
    (pm.applyPosition u).inflight = pm.inflight := by
  simp only [PM.applyPosition, PM.setFlat, PM.setLong, PM.setShort]
  split_ifs <;> rfl

lemma evalSignal_paper_inflight (P : Params) (pm : PM) (c : Candle)
    (r : ℚ) (et : Bool) :
    (evalSignal P .paper pm c r et).pm.inflight = pm.inflight := by
  simp only [evalSignal]
  split_ifs <;> rfl

lemma reachable_paper_inflight (P : Params) (m : ℕ) (s : RunnerState)
    (h : Reachable P .paper m s) : s.pm.inflight = false := by
  induction h with
  | init => rfl
  | @step s' e _ ih =>
      cases e with
      | candle c et =>
          simp only [runnerStep, onCandle]
          cases hr : calculateRSI (pushClose s'.closes c.close) P.period with
          | none => simpa using ih
          | some r => simpa using (evalSignal_paper_inflight P s'.pm c r et).trans ih
      | position u => simpa using (applyPosition_inflight s'.pm u).trans ih
      | terminal => rfl

/-- C9: in paper mode `inflight` stays false in every reachable state,
and on every warm candle whose oscillator value exceeds `high`
(respectively is below `low`) the runner submits a zero-quantity sell
(respectively buy) priced from the matched top-of-book level —
regardless of the band, the cycle counter and the armed flag — and the
whole position-cycle state is left unchanged. -/
theorem c9_paper_mode_bypass :
    (∀ (P : Params) (m : ℕ) (s : RunnerState),
        Reachable P .paper m s → s.pm.inflight = false) ∧
    (∀ (P : Params) (s : RunnerState) (c : Candle) (r : ℚ) (et : Bool),
        s.pm.inflight = false →
        calculateRSI (pushClose s.closes c.close) P.period = some r →
        (P.high < r →
          onCandle P .paper s c et =
            (⟨pushClose s.closes c.close, s.pm⟩,
             [⟨.SELL, 0, bidPrice c.orderBook 0⟩], .ok)) ∧
        (P.low ≤ P.high → r < P.low →
          onCandle P .paper s c et =
            (⟨pushClose s.closes c.close, s.pm⟩,
             [⟨.BUY, 0, askPrice c.orderBook 0⟩], .ok))) := by
  constructor
  · exact reachable_paper_inflight
  · intro P s c r et hin hr
    constructor
    · intro hhigh
      have hnn : ¬(P.low ≤ r ∧ r ≤ P.high) := by
        rintro ⟨-, h2⟩
        linarith
      simp [onCandle, hr, evalSignal, hnn, hin, hhigh]
    · intro hlh hlow
      have hnn : ¬(P.low ≤ r ∧ r ≤ P.high) := by
        rintro ⟨h1, -⟩
        linarith
      have hnh : ¬P.high < r := by linarith
      simp [onCandle, hr, evalSignal, hnn, hin, hnh, hlow]

/-- Witness for C9: a paper-mode candle with RSI 100 in a state with an
exhausted, disarmed lower cycle still emits the zero-quantity sell and
changes nothing. -/
theorem c9_paper_mode_bypass_witness :
    onCandle ⟨1, 30, 70, 100, 2⟩ .paper
      ⟨[1, 2], ⟨.FLAT, 0, some .lower, 2, false, false, 2⟩⟩
      ⟨0, 60000, 1, 4, 1, 4, ⟨[⟨10, 100⟩], [⟨11, 100⟩]⟩⟩ true =
      (⟨[1, 2, 4], ⟨.FLAT, 0, some .lower, 2, false, false, 2⟩⟩,
       [⟨.SELL, 0, 10⟩], .ok) := by
  have h := (c9_paper_mode_bypass.2 ⟨1, 30, 70, 100, 2⟩
    ⟨[1, 2], ⟨.FLAT, 0, some .lower, 2, false, false, 2⟩⟩
    ⟨0, 60000, 1, 4, 1, 4, ⟨[⟨10, 100⟩], [⟨11, 100⟩]⟩⟩ 100 true rfl
    (by norm_num [calculateRSI, pushClose, deltas, wilderStep])).1
    (by norm_num)
  rw [h]
  norm_num [pushClose, bidPrice, findBid]

/-! ## Claim C1: the flatten depth gate -/

/-- C1: at a candle where RSI exceeds `high` with `ordersInCycle = 0`,
side LONG (quantity 5), an armed upper cycle, a bid level covering the
full quantity and no ask level at all, the evaluation submits nothing
and consumes no cycle slot: the code gates the flatten sell on the
**ask** side, not on the bid side the claim (and the symmetric
`tradeOpen` sell path) uses — the skip itself is logged, order-free
and slot-free as claimed. -/
theorem c1_flatten_gated_on_ask_side :
    findBid ⟨[⟨100, 10⟩], []⟩ (roundToScale 2 5) = some ⟨100, 10⟩ ∧
    findAsk ⟨[⟨100, 10⟩], []⟩ (roundToScale 2 5) = none ∧
    onCandle ⟨1, 30, 70, 100, 2⟩ .real
      ⟨[1, 2], ⟨.LONG, 5, some .upper, 0, true, false, 2⟩⟩
      ⟨0, 60000, 1, 4, 1, 4, ⟨[⟨100, 10⟩], []⟩⟩ false =
      (⟨[1, 2, 4], ⟨.LONG, 5, some .upper, 0, true, false, 2⟩⟩,
       [], .ok) := by
  refine ⟨?_, rfl, ?_⟩
  · norm_num [findBid, roundToScale]
  · norm_num [onCandle, evalSignal, evalBand, tradeOpen, tradeFlatten,
      pushClose, calculateRSI, deltas, wilderStep, PM.enterBand,
      PM.consumeAndDisarm, qtyFromUsdVal, roundToScale, bidPrice, askPrice,
      findBid, findAsk]

/-! ## Claim C2: first slot with side not LONG -/

/-- C2: at a candle where RSI exceeds `high` with `ordersInCycle = 0`,
an armed upper cycle and side FLAT (not LONG), the evaluation does not
consume the slot as a no-op flatten: it submits a USD-sized sell
(opening a short), consuming the slot and clearing `armed` with
`inflight` set — contradicting "no order is submitted on that
candle". -/
theorem c2_not_long_opens_short :
    onCandle ⟨1, 30, 70, 100, 2⟩ .real
      ⟨[1, 2], ⟨.FLAT, 0, some .upper, 0, true, false, 2⟩⟩
      ⟨0, 60000, 1, 4, 1, 4, ⟨[⟨10, 100⟩], [⟨11, 100⟩]⟩⟩ false =
      (⟨[1, 2, 4], ⟨.FLAT, 0, some .upper, 1, false, true, 2⟩⟩,
       [⟨.SELL, 25, 10⟩], .ok) := by
  norm_num [onCandle, evalSignal, evalBand, tradeOpen, tradeFlatten,
    pushClose, calculateRSI, deltas, wilderStep, PM.enterBand,
    PM.consumeAndDisarm, qtyFromUsdVal, roundToScale, bidPrice, askPrice,
    findBid, findAsk]; simp
